import Mathlib

/-!
Shallow embedding of the IronCore skills-panel engine: value parsing and
validity checks (skills_parser.py, skills_analyzer.py), the experience
rate tracker (exp_tracker.py), the watcher state update and ETA
estimators (skills.py), and the numeric box locator guard (ocr_utils.py).
Strings are modelled as lists of characters restricted to ASCII;
Python floats are modelled as rationals.
-/

/-- ASCII decimal digit test: the regex class [0-9] (and the digit class
of the source patterns, restricted to ASCII input). -/
def isDigitCh (c : Char) : Bool := decide ('0' ≤ c) && decide (c ≤ '9')

/-- ASCII whitespace test: the regex whitespace class of the source
patterns, restricted to ASCII input. -/
def isSpaceCh (c : Char) : Bool :=
  c == ' ' || c == '\t' || c == '\n' || c == '\r' ||
  c == Char.ofNat 11 || c == Char.ofNat 12

/-- Numeric value of a list of digit characters, as Python int() on a
digit string. -/
def digitsToNat (l : List Char) : Nat :=
  l.foldl (fun n c => n * 10 + (c.toNat - ('0').toNat)) 0

/-- skills_parser.is_valid_experience: bool(val and
re.fullmatch(r"[0-9][0-9,\.]*", val)).  The same test appears as
skills.py _is_valid_experience. -/
def is_valid_experience (v : Option (List Char)) : Bool :=
  match v with
  | none => false
  | some [] => false
  | some (c :: t) =>
      isDigitCh c && t.all (fun d => isDigitCh d || d == ',' || d == '.')

/-- Matcher of the optional percent sign %? : splits off a leading '%'
when present. -/
def dropPercent (l : List Char) : List Char × List Char :=
  match l with
  | [] => ([], [])
  | c :: t => if c = '%' then (['%'], t) else ([], c :: t)

/-- Inside of the parenthesized group of the level validity regex,
after the opening parenthesis: \s*\d+%?\s*\) followed by end of
input (note: no whitespace is allowed between the digits and the
percent sign there).  Deterministic matching is sound because every
greedy sub-munch is followed by a character outside the munched
class. -/
def afterParen (r2 : List Char) : Bool :=
  let r3 := r2.dropWhile isSpaceCh
  let ds := r3.takeWhile isDigitCh
  let r4 := r3.dropWhile isDigitCh
  !ds.isEmpty && (((dropPercent r4).2.dropWhile isSpaceCh) == [')'])

/-- Tail of the level validity regex after the leading digit run:
(\s*\(\s*\d+\s*%?\s*\)) matched against the whole remaining input. -/
def levelSuffixMatch (l : List Char) : Bool :=
  let t := l.dropWhile isSpaceCh
  decide (t.head? = some '(') && afterParen t.tail

/-- Whole-string match of the level validity regex
\d+(\s*\(\s*\d+%?\s*\))? from skills_parser.is_valid_level. -/
def levelMatch (s : List Char) : Bool :=
  let ds := s.takeWhile isDigitCh
  let rest := s.dropWhile isDigitCh
  !ds.isEmpty && (rest.isEmpty || levelSuffixMatch rest)

/-- skills_parser.is_valid_level: bool(val and
re.fullmatch(r"\d+(\s*\(\s*\d+%?\s*\))?", val)).  The same test appears
as skills.py _is_valid_level. -/
def is_valid_level (v : Option (List Char)) : Bool :=
  match v with
  | none => false
  | some s => !s.isEmpty && levelMatch s

/-- A nonempty all-digit string, the denotation of \d+. -/
def DigitStr (l : List Char) : Prop :=
  l ≠ [] ∧ ∀ c ∈ l, isDigitCh c = true

/-- An all-whitespace (possibly empty) string, the denotation of \s*. -/
def SpaceStr (l : List Char) : Prop := ∀ c ∈ l, isSpaceCh c = true

/-- Denotational language of the code regex
\d+(\s*\(\s*\d+%?\s*\))? as a whole-string pattern. -/
def InLevelLang (s : List Char) : Prop :=
  ∃ d, DigitStr d ∧
    (s = d ∨ ∃ w1 w2 d2 p wb, SpaceStr w1 ∧ SpaceStr w2 ∧ DigitStr d2 ∧
      (p = [] ∨ p = ['%']) ∧ SpaceStr wb ∧
      s = d ++ w1 ++ '(' :: (w2 ++ d2 ++ p ++ wb ++ [')']))

/-- Denotational language of the claimed regex \d+(\(\d+%?\))? (no
whitespace tolerated), as a whole-string pattern. -/
def InStrictLevelLang (s : List Char) : Prop :=
  ∃ d, DigitStr d ∧
    (s = d ∨ ∃ d2 p, DigitStr d2 ∧ (p = [] ∨ p = ['%']) ∧
      s = d ++ '(' :: (d2 ++ p ++ [')']))

theorem spaceStr_takeWhile (l : List Char) :
    SpaceStr (l.takeWhile isSpaceCh) :=
  fun _ hc => List.mem_takeWhile_imp hc

theorem dropPercent_spec (l : List Char) :
    l = (dropPercent l).1 ++ (dropPercent l).2 ∧
      ((dropPercent l).1 = [] ∨ (dropPercent l).1 = ['%']) := by
  cases l with
  | nil => exact ⟨rfl, Or.inl rfl⟩
  | cons c t =>
      by_cases hc : c = '%'
      · subst hc; simp [dropPercent]
      · simp [dropPercent, hc]

theorem levelSuffixMatch_sound (rest : List Char)
    (h : levelSuffixMatch rest = true) :
    ∃ w1 w2 d2 p wb, SpaceStr w1 ∧ SpaceStr w2 ∧ DigitStr d2 ∧
      (p = [] ∨ p = ['%']) ∧ SpaceStr wb ∧
      rest = w1 ++ '(' :: (w2 ++ d2 ++ p ++ wb ++ [')']) := by
  have hrest :
      rest.takeWhile isSpaceCh ++ rest.dropWhile isSpaceCh = rest :=
    List.takeWhile_append_dropWhile _ _
  unfold levelSuffixMatch at h
  simp only [Bool.and_eq_true, decide_eq_true_eq] at h
  obtain ⟨hhead, hbody⟩ := h
  obtain ⟨r2, htl⟩ : ∃ r2, rest.dropWhile isSpaceCh = '(' :: r2 := by
    cases hcase : rest.dropWhile isSpaceCh with
    | nil => rw [hcase] at hhead; simp at hhead
    | cons c r2 =>
        rw [hcase] at hhead
        simp only [List.head?_cons, Option.some.injEq] at hhead
        exact ⟨r2, by rw [hhead]⟩
  rw [htl] at hbody
  simp only [List.tail_cons] at hbody
  unfold afterParen at hbody
  simp only [Bool.and_eq_true, Bool.not_eq_true', beq_iff_eq] at hbody
  obtain ⟨hds, hr6⟩ := hbody
  have hpr2 :
      (dropPercent ((r2.dropWhile isSpaceCh).dropWhile
        isDigitCh)).2.takeWhile isSpaceCh ++ [')'] =
      (dropPercent ((r2.dropWhile isSpaceCh).dropWhile
        isDigitCh)).2 := by
    conv_rhs =>
      rw [← List.takeWhile_append_dropWhile isSpaceCh
        (dropPercent ((r2.dropWhile isSpaceCh).dropWhile
          isDigitCh)).2]
    rw [hr6]
  have key : rest.takeWhile isSpaceCh ++
      ('(' :: (r2.takeWhile isSpaceCh ++
        ((r2.dropWhile isSpaceCh).takeWhile isDigitCh ++
          ((dropPercent ((r2.dropWhile isSpaceCh).dropWhile
              isDigitCh)).1 ++
            ((dropPercent ((r2.dropWhile isSpaceCh).dropWhile
                isDigitCh)).2.takeWhile isSpaceCh ++
              [')']))))) = rest := by
    rw [hpr2, ← (dropPercent_spec ((r2.dropWhile isSpaceCh).dropWhile
          isDigitCh)).1,
      List.takeWhile_append_dropWhile, List.takeWhile_append_dropWhile,
      ← htl, hrest]
  refine ⟨rest.takeWhile isSpaceCh, r2.takeWhile isSpaceCh,
    (r2.dropWhile isSpaceCh).takeWhile isDigitCh,
    (dropPercent ((r2.dropWhile isSpaceCh).dropWhile isDigitCh)).1,
    (dropPercent ((r2.dropWhile isSpaceCh).dropWhile
      isDigitCh)).2.takeWhile isSpaceCh,
    spaceStr_takeWhile rest, spaceStr_takeWhile r2, ?_,
    (dropPercent_spec _).2, spaceStr_takeWhile _, ?_⟩
  · refine ⟨fun hn => ?_, fun c hc => List.mem_takeWhile_imp hc⟩
    rw [hn] at hds; simp at hds
  · conv_lhs => rw [← key]
    simp [List.append_assoc]

theorem levelMatch_sound (s : List Char) (h : levelMatch s = true) :
    InLevelLang s := by
  unfold levelMatch at h
  simp only [Bool.and_eq_true, Bool.not_eq_true', Bool.or_eq_true] at h
  obtain ⟨hds, hrest⟩ := h
  have hs : s.takeWhile isDigitCh ++ s.dropWhile isDigitCh = s :=
    List.takeWhile_append_dropWhile _ _
  have hdig : DigitStr (s.takeWhile isDigitCh) := by
    refine ⟨fun hn => ?_, fun c hc => List.mem_takeWhile_imp hc⟩
    rw [hn] at hds; simp at hds
  rcases hrest with hrest | hrest
  · refine ⟨s.takeWhile isDigitCh, hdig, Or.inl ?_⟩
    rw [List.isEmpty_iff] at hrest
    conv_lhs => rw [← hs]
    rw [hrest, List.append_nil]
  · obtain ⟨w1, w2, d2, p, wb, h1, h2, h3, h4, h5, heq⟩ :=
      levelSuffixMatch_sound _ hrest
    refine ⟨s.takeWhile isDigitCh, hdig,
      Or.inr ⟨w1, w2, d2, p, wb, h1, h2, h3, h4, h5, ?_⟩⟩
    conv_lhs => rw [← hs]
    rw [heq]
    simp

/-- Every character of a string in the strict level language is a digit
or one of the three punctuation characters. -/
theorem strictLevelLang_chars (s : List Char) (h : InStrictLevelLang s) :
    ∀ c ∈ s, isDigitCh c = true ∨ c = '(' ∨ c = ')' ∨ c = '%' := by
  obtain ⟨d, ⟨_, hd⟩, hcase⟩ := h
  intro c hc
  rcases hcase with heq | ⟨d2, p, ⟨_, hd2⟩, hp, heq⟩
  · exact Or.inl (hd c (heq ▸ hc))
  · subst heq
    rcases List.mem_append.mp hc with hc | hc
    · exact Or.inl (hd c hc)
    · rcases List.mem_cons.mp hc with hc | hc
      · exact Or.inr (Or.inl hc)
      · rcases List.mem_append.mp hc with hc | hc
        · rcases List.mem_append.mp hc with hc | hc
          · exact Or.inl (hd2 c hc)
          · rcases hp with hp | hp
            · rw [hp] at hc; simp at hc
            · rw [hp] at hc
              simp only [List.mem_singleton] at hc
              exact Or.inr (Or.inr (Or.inr hc))
        · simp only [List.mem_singleton] at hc
          exact Or.inr (Or.inr (Or.inl hc))

/-- Every string of the code-regex level language starts with a digit. -/
theorem inLevelLang_head (s : List Char) (h : InLevelLang s) :
    ∃ c t, s = c :: t ∧ isDigitCh c = true := by
  obtain ⟨d, ⟨hne, hd⟩, hcase⟩ := h
  cases d with
  | nil => exact absurd rfl hne
  | cons c d2 =>
      rcases hcase with heq | ⟨w1, w2, e2, p, wb, _, _, _, _, _, heq⟩
      · exact ⟨c, d2, heq, hd c (by simp)⟩
      · refine ⟨c, d2 ++ w1 ++ '(' :: (w2 ++ e2 ++ p ++ wb ++ [')']),
          ?_, hd c (by simp)⟩
        rw [heq]
        simp [List.cons_append, List.append_assoc]

/-- Claim C6 as stated is false: the string "1 (2)" does not match the
claimed regex \d+(\(\d+%?\))? as a whole (no whitespace is tolerated
there), yet is_valid_level accepts it, because the code regex
\d+(\s*\(\s*\d+%?\s*\))? tolerates whitespace around the group. -/
theorem is_valid_level_strict_counterexample :
    ¬ InStrictLevelLang (("1 (2)").toList) ∧
      is_valid_level (some (("1 (2)").toList)) = true := by
  constructor
  · intro h
    have hch := strictLevelLang_chars _ h ' ' (by decide)
    rcases hch with hch | hch | hch | hch <;> exact absurd hch (by decide)
  · decide

/-- Claim C6 amended: for every string that does not match the code
regex \d+(\s*\(\s*\d+%?\s*\))? as a whole, is_valid_level is false. -/
theorem is_valid_level_false_of_not_match (s : List Char)
    (h : ¬ InLevelLang s) : is_valid_level (some s) = false := by
  by_contra hb
  apply h
  have ht : is_valid_level (some s) = true := by
    revert hb; cases is_valid_level (some s) <;> simp
  unfold is_valid_level at ht
  simp only [Bool.and_eq_true] at ht
  exact levelMatch_sound s ht.2

theorem is_valid_level_false_of_not_match_witness :
    ¬ InLevelLang (("x").toList) ∧
      is_valid_level (some (("x").toList)) = false := by
  have hn : ¬ InLevelLang (("x").toList) := by
    intro h
    obtain ⟨c, t, heq, hc⟩ := inLevelLang_head _ h
    have heq2 : ['x'] = c :: t := heq
    injection heq2 with h1 h2
    rw [← h1] at hc
    exact absurd hc (by decide)
  exact ⟨hn, is_valid_level_false_of_not_match _ hn⟩

/-- Leftmost search for the pattern \((\d+) : the first '(' that is
immediately followed by at least one digit; returns the maximal digit
run after it. -/
def findParenDigits : List Char → Option (List Char)
  | [] => none
  | c :: t =>
      if c = '(' then
        let ds := t.takeWhile isDigitCh
        if ds.isEmpty then findParenDigits t else some ds
      else findParenDigits t

/-- Leftmost search for (\d+) : the first maximal digit run. -/
def findFirstDigits (l : List Char) : Option (List Char) :=
  match l.dropWhile (fun c => !isDigitCh c) with
  | [] => none
  | c :: t => some (c :: t.takeWhile isDigitCh)

/-- Python str.strip restricted to ASCII whitespace. -/
def stripStr (l : List Char) : List Char :=
  ((l.dropWhile isSpaceCh).reverse.dropWhile isSpaceCh).reverse

/-- Matcher of the anchored normalization regex
^\s*(\d+)\s*(?:\(\s*([0-9]+)\s*%?\s*\))?\s*$ of
skills_parser._normalize_skill_value; returns the captured digit groups
(base, optional percent).  Deterministic matching is sound because each
greedy sub-munch is followed by a character outside the munched class. -/
def normAnchored (s : List Char) :
    Option (List Char × Option (List Char)) :=
  let r1 := s.dropWhile isSpaceCh
  let base := r1.takeWhile isDigitCh
  if base.isEmpty then none
  else
    match (r1.dropWhile isDigitCh).dropWhile isSpaceCh with
    | [] => some (base, none)
    | '(' :: r4 =>
        let r5 := r4.dropWhile isSpaceCh
        let pct := r5.takeWhile isDigitCh
        if pct.isEmpty then none
        else
          let r6 := (r5.dropWhile isDigitCh).dropWhile isSpaceCh
          match (dropPercent r6).2.dropWhile isSpaceCh with
          | ')' :: r8 =>
              if (r8.dropWhile isSpaceCh).isEmpty then
                some (base, some pct)
              else none
          | _ => none
    | _ => none

/-- skills_parser._normalize_skill_value (identical logic in skills.py
_normalize_skill_value): canonicalize a noisy OCR skill value to
"N (P%)" or "N"; when the anchored pattern fails, fall back to the
leading digit run and a parenthesized digit run; otherwise return the
stripped raw text. -/
def normalize_skill_value (raw : List Char) : List Char :=
  match normAnchored raw with
  | some (base, some pct) => base ++ (" (").toList ++ pct ++ ("%)").toList
  | some (base, none) => base
  | none =>
      match findFirstDigits raw, findParenDigits raw with
      | some b, some p => b ++ (" (").toList ++ p ++ ("%)").toList
      | some b, none => b
      | none, _ => stripStr raw

/-- Attempted match of (\d+)\s*\(\s*([0-9]+)\s*%\s*\) anchored at the
start of l, returning the two captured numbers. -/
def lvlPctHere (l : List Char) : Option (Nat × Nat) :=
  let d1 := l.takeWhile isDigitCh
  if d1.isEmpty then none
  else
    match (l.dropWhile isDigitCh).dropWhile isSpaceCh with
    | '(' :: r2 =>
        let r3 := r2.dropWhile isSpaceCh
        let d2 := r3.takeWhile isDigitCh
        if d2.isEmpty then none
        else
          match (r3.dropWhile isDigitCh).dropWhile isSpaceCh with
          | '%' :: r4 =>
              match r4.dropWhile isSpaceCh with
              | ')' :: _ => some (digitsToNat d1, digitsToNat d2)
              | _ => none
          | _ => none
    | _ => none

/-- Leftmost search for (\d+)\s*\(\s*([0-9]+)\s*%\s*\). -/
def searchLvlPct : List Char → Option (Nat × Nat)
  | [] => none
  | c :: t =>
      match lvlPctHere (c :: t) with
      | some r => some r
      | none => searchLvlPct t

/-- Leftmost (\d+) as a number. -/
def searchFirstNat (l : List Char) : Option Nat :=
  (findFirstDigits l).map digitsToNat

/-- skills_parser.parse_skill_value (identical logic in skills.py
_parse_skill_value): (level, percent) from a raw skill value string. -/
def parse_skill_value (raw : List Char) : Option Nat × Option Nat :=
  match searchLvlPct (normalize_skill_value raw) with
  | some (a, b) => (some a, some b)
  | none =>
      match searchFirstNat (normalize_skill_value raw) with
      | some a => (some a, none)
      | none => (none, none)

/-- Claim C7: the six documented normalization and extraction examples
hold of normalize_skill_value and parse_skill_value. -/
theorem skill_value_normalization_examples :
    normalize_skill_value (("10(6%0)").toList) = ("10 (6%)").toList ∧
    normalize_skill_value (("39 (66%o)").toList) = ("39 (66%)").toList ∧
    normalize_skill_value (("55").toList) = ("55").toList ∧
    parse_skill_value (("39 (67%)").toList) = (some 39, some 67) ∧
    parse_skill_value (("39").toList) = (some 39, none) ∧
    parse_skill_value (("not a skill").toList) = (none, none) := by
  decide

/-- Characters of the run class [\d\s,\.] of the experience cleaning
regex. -/
def expRunChar (c : Char) : Bool :=
  isDigitCh c || isSpaceCh c || c == ',' || c == '.'

/-- skills_analyzer._clean_experience (identical logic in skills.py
_clean_experience): extract the first run matching [\d][\d\s,\.]*,
delete the spaces, turn periods into commas; empty or missing input
gives None; input with no digit is returned unchanged. -/
def clean_experience (v : Option (List Char)) : Option (List Char) :=
  match v with
  | none => none
  | some [] => none
  | some raw =>
      match raw.dropWhile (fun c => !isDigitCh c) with
      | [] => some raw
      | c :: t =>
          let run := c :: t.takeWhile expRunChar
          some ((run.filter (fun d => !(d == ' '))).map
            (fun d => if d = '.' then ',' else d))

/-- Claim C8: every nonempty all-digit string passes
is_valid_experience, and clean_experience turns "12.345" into "12,345"
and "12 345" into "12345". -/
theorem experience_cleaning_and_validity (s : List Char)
    (hne : s ≠ []) (hdig : ∀ c ∈ s, isDigitCh c = true) :
    is_valid_experience (some s) = true ∧
    clean_experience (some (("12.345").toList)) =
      some (("12,345").toList) ∧
    clean_experience (some (("12 345").toList)) =
      some (("12345").toList) := by
  refine ⟨?_, by decide, by decide⟩
  cases s with
  | nil => exact absurd rfl hne
  | cons c t =>
      unfold is_valid_experience
      simp only [Bool.and_eq_true]
      refine ⟨hdig c (by simp), ?_⟩
      rw [List.all_eq_true]
      intro d hd
      simp [hdig d (by simp [hd])]

theorem experience_cleaning_and_validity_witness :
    (("123").toList ≠ [] ∧ ∀ c ∈ ("123").toList, isDigitCh c = true) ∧
      is_valid_experience (some (("123").toList)) = true :=
  ⟨by decide,
    (experience_cleaning_and_validity (("123").toList) (by decide)
      (by decide)).1⟩

/-- exp_tracker.ExpSnapshot: one timestamped experience sample. -/
structure ExpSnapshot where
  timestamp : ℚ
  exp : ℤ
deriving DecidableEq, Repr

/-- exp_tracker.ExpTracker state: optional baseline plus the snapshot
history deque, oldest first. -/
structure ExpTracker where
  baseline : Option ℤ
  history : List ExpSnapshot
deriving DecidableEq, Repr

/-- ExpTracker.MAX_WINDOW_SEC = 60 * 60. -/
def MAX_WINDOW_SEC : ℚ := 60 * 60

/-- ExpTracker.__init__. -/
def ExpTracker.start : ExpTracker := ⟨none, []⟩

/-- ExpTracker.reset with an explicit timestamp (the source defaults
the timestamp to the current wall-clock time; time is explicit here). -/
def ExpTracker.reset (_t : ExpTracker) (exp : Option ℤ) (ts : ℚ) :
    ExpTracker :=
  match exp with
  | none => ⟨none, []⟩
  | some e => ⟨some e, [⟨ts, e⟩]⟩

/-- ExpTracker._prune: pop leading snapshots strictly older than
now - MAX_WINDOW_SEC. -/
def ExpTracker.prune (t : ExpTracker) (now : ℚ) : ExpTracker :=
  ⟨t.baseline,
    t.history.dropWhile
      (fun s => decide (s.timestamp < now - MAX_WINDOW_SEC))⟩

/-- ExpTracker._baseline_for_window: the first snapshot at or after the
cutoff, else the last snapshot at or before the cutoff. -/
def baselineForWindow (h : List ExpSnapshot) (cutoff : ℚ) : Option ℤ :=
  match h.find? (fun s => decide (cutoff ≤ s.timestamp)) with
  | some s => some s.exp
  | none =>
      (h.reverse.find? (fun s => decide (s.timestamp ≤ cutoff))).map
        ExpSnapshot.exp

/-- ExpTracker._delta_for_window. -/
def deltaForWindow (t : ExpTracker) (now window : ℚ) : Option ℤ :=
  match baselineForWindow t.history (now - window),
      t.history.getLast?.map ExpSnapshot.exp with
  | some b, some l => some (l - b)
  | _, _ => none

/-- The dictionary returned by ExpTracker.update, keys
"10m", "60m", "1m", "total". -/
structure ExpDeltas where
  d10m : Option ℤ
  d60m : Option ℤ
  d1m : Option ℤ
  total : Option ℤ
deriving DecidableEq, Repr

/-- ExpTracker.update with an explicit current time: None is an
immediate all-None return; otherwise implicit reset when no baseline
exists, else append, then prune, then report the three window deltas
and the cumulative total. -/
def ExpTracker.update (t : ExpTracker) (exp : Option ℤ) (now : ℚ) :
    ExpTracker × ExpDeltas :=
  match exp with
  | none => (t, ⟨none, none, none, none⟩)
  | some e =>
      let t1 : ExpTracker := match t.baseline with
        | none => t.reset (some e) now
        | some _ => ⟨t.baseline, t.history ++ [⟨now, e⟩]⟩
      let t2 := t1.prune now
      (t2,
        ⟨deltaForWindow t2 now (10 * 60), deltaForWindow t2 now (60 * 60),
          deltaForWindow t2 now (1 * 60),
          some (e - t2.baseline.getD e)⟩)

/-- Claim C9: updating with None returns the all-None delta mapping and
leaves the tracker state (baseline and history) exactly unchanged. -/
theorem exp_tracker_update_none_noop (t : ExpTracker) (now : ℚ) :
    t.update none now = (t, ⟨none, none, none, none⟩) := rfl

/-- Chronologically ordered history (nondecreasing timestamps). -/
def TsSorted (h : List ExpSnapshot) : Prop :=
  List.Pairwise (fun a b => a.timestamp ≤ b.timestamp) h

theorem mem_of_getLast?_eq {α : Type} (l : List α) (a : α)
    (h : l.getLast? = some a) : a ∈ l := by
  obtain ⟨hne, rfl⟩ := List.mem_getLast?_eq_getLast h
  exact List.getLast_mem hne

theorem find_first_earliest (c : ℚ) :
    ∀ (h : List ExpSnapshot), TsSorted h →
      ∀ b, h.find? (fun s => decide (c ≤ s.timestamp)) = some b →
        b ∈ h ∧ c ≤ b.timestamp ∧
          ∀ s ∈ h, c ≤ s.timestamp → b.timestamp ≤ s.timestamp := by
  intro h
  induction h with
  | nil => intro _ b hb; simp at hb
  | cons a t ih =>
      intro hs b hb
      rw [TsSorted, List.pairwise_cons] at hs
      by_cases hc : c ≤ a.timestamp
      · rw [List.find?_cons_of_pos _ (by simp [hc])] at hb
        injection hb with hb
        subst hb
        refine ⟨by simp, hc, ?_⟩
        intro s hsm hcs
        rcases List.mem_cons.mp hsm with rfl | hsm
        · exact le_refl _
        · exact hs.1 s hsm
      · rw [List.find?_cons_of_neg _ (by simp [hc])] at hb
        obtain ⟨hmem, hcb, hmin⟩ := ih hs.2 b hb
        refine ⟨List.mem_cons_of_mem _ hmem, hcb, ?_⟩
        intro s hsm hcs
        rcases List.mem_cons.mp hsm with rfl | hsm
        · exact absurd hcs hc
        · exact hmin s hsm hcs

theorem last_is_max :
    ∀ (h : List ExpSnapshot), TsSorted h → ∀ x, h.getLast? = some x →
      ∀ s ∈ h, s.timestamp ≤ x.timestamp := by
  intro h
  induction h with
  | nil => intro _ x hx; simp at hx
  | cons a t ih =>
      intro hs x hx s hsm
      rw [TsSorted, List.pairwise_cons] at hs
      cases t with
      | nil =>
          simp only [List.getLast?_singleton, Option.some.injEq] at hx
          subst hx
          rcases List.mem_cons.mp hsm with rfl | hsm
          · exact le_refl _
          · simp at hsm
      | cons b u =>
          rw [List.getLast?_cons_cons] at hx
          have hxmem : x ∈ b :: u := mem_of_getLast?_eq _ _ hx
          rcases List.mem_cons.mp hsm with rfl | hsm
          · exact hs.1 x hxmem
          · exact ih hs.2 x hx s hsm

theorem reverse_find_last (h : List ExpSnapshot) (c : ℚ)
    (hall : ∀ s ∈ h, s.timestamp < c) (x : ExpSnapshot)
    (hx : h.getLast? = some x) :
    h.reverse.find? (fun s => decide (s.timestamp ≤ c)) = some x := by
  have hrev : h.reverse.head? = some x := by
    rw [List.head?_reverse]; exact hx
  cases hr : h.reverse with
  | nil => rw [hr] at hrev; simp at hrev
  | cons y u =>
      rw [hr] at hrev
      simp only [List.head?_cons, Option.some.injEq] at hrev
      subst hrev
      apply List.find?_cons_of_pos
      simp only [decide_eq_true_eq]
      exact le_of_lt (hall y (mem_of_getLast?_eq _ _ hx))

theorem deltaForWindow_spec (bl : Option ℤ) (h : List ExpSnapshot)
    (now w : ℚ) (hs : TsSorted h) (hne : h ≠ []) :
    ∃ last b, h.getLast? = some last ∧ b ∈ h ∧
      deltaForWindow ⟨bl, h⟩ now w = some (last.exp - b.exp) ∧
      ((now - w ≤ b.timestamp ∧
          ∀ s ∈ h, now - w ≤ s.timestamp → b.timestamp ≤ s.timestamp) ∨
        ((∀ s ∈ h, s.timestamp < now - w) ∧ b.timestamp ≤ now - w ∧
          ∀ s ∈ h, s.timestamp ≤ b.timestamp)) := by
  obtain ⟨last, hlast⟩ : ∃ x, h.getLast? = some x := by
    cases hx : h.getLast? with
    | none => exact absurd (List.getLast?_eq_none_iff.mp hx) hne
    | some x => exact ⟨x, rfl⟩
  cases hf : h.find? (fun s => decide (now - w ≤ s.timestamp)) with
  | some b =>
      obtain ⟨hmem, hcb, hmin⟩ := find_first_earliest (now - w) h hs b hf
      refine ⟨last, b, hlast, hmem, ?_, Or.inl ⟨hcb, hmin⟩⟩
      unfold deltaForWindow baselineForWindow
      simp only [hf, hlast, Option.map_some']
  | none =>
      have hall : ∀ s ∈ h, s.timestamp < now - w := by
        intro s hsm
        have h2 := List.find?_eq_none.mp hf s hsm
        simp only [decide_eq_true_eq] at h2
        exact not_le.mp h2
      have hrv := reverse_find_last h (now - w) hall last hlast
      refine ⟨last, last, hlast, mem_of_getLast?_eq _ _ hlast, ?_,
        Or.inr ⟨hall, le_of_lt (hall last (mem_of_getLast?_eq _ _ hlast)),
          last_is_max h hs last hlast⟩⟩
      unfold deltaForWindow baselineForWindow
      simp only [hf, hrv, hlast, Option.map_some']

/-- Claim C1: the documented reset/update scenario holds (update(1000)
at t=0 leaves total 0; update(1500) at t=60 gives total 500 and
10-minute delta 500), and in general, for every chronological nonempty
history and window length, the window delta equals the last snapshot's
experience minus the experience of the earliest snapshot at or after
now - w when one exists, else minus the experience of the latest
snapshot (all snapshots then lying before now - w). -/
theorem exp_tracker_window_delta :
    (((ExpTracker.start.reset (some 1000) 0).update (some 1000) 0).2.total
        = some 0) ∧
    ((((ExpTracker.start.reset (some 1000) 0).update
        (some 1000) 0).1.update (some 1500) 60).2.total = some 500) ∧
    ((((ExpTracker.start.reset (some 1000) 0).update
        (some 1000) 0).1.update (some 1500) 60).2.d10m = some 500) ∧
    ∀ (bl : Option ℤ) (h : List ExpSnapshot) (now w : ℚ),
      TsSorted h → h ≠ [] →
      ∃ last b, h.getLast? = some last ∧ b ∈ h ∧
        deltaForWindow ⟨bl, h⟩ now w = some (last.exp - b.exp) ∧
        ((now - w ≤ b.timestamp ∧
            ∀ s ∈ h, now - w ≤ s.timestamp → b.timestamp ≤ s.timestamp) ∨
          ((∀ s ∈ h, s.timestamp < now - w) ∧ b.timestamp ≤ now - w ∧
            ∀ s ∈ h, s.timestamp ≤ b.timestamp)) := by
  refine ⟨?_, ?_, ?_,
    fun bl h now w hs hne => deltaForWindow_spec bl h now w hs hne⟩
  · norm_num [ExpTracker.update, ExpTracker.reset, ExpTracker.start,
      ExpTracker.prune, MAX_WINDOW_SEC, List.dropWhile_cons]
  · norm_num [ExpTracker.update, ExpTracker.reset, ExpTracker.start,
      ExpTracker.prune, MAX_WINDOW_SEC, List.dropWhile_cons]
  · norm_num [ExpTracker.update, ExpTracker.reset, ExpTracker.start,
      ExpTracker.prune, MAX_WINDOW_SEC, List.dropWhile_cons,
      deltaForWindow, baselineForWindow, List.find?_cons]

theorem exp_tracker_window_delta_witness :
    (TsSorted [ExpSnapshot.mk 0 1000, ExpSnapshot.mk 60 1500] ∧
      [ExpSnapshot.mk 0 1000, ExpSnapshot.mk 60 1500] ≠
        ([] : List ExpSnapshot)) ∧
    ∃ last b,
      ([ExpSnapshot.mk 0 1000, ExpSnapshot.mk 60 1500]).getLast? =
          some last ∧
      b ∈ [ExpSnapshot.mk 0 1000, ExpSnapshot.mk 60 1500] ∧
      deltaForWindow
          ⟨some 1000, [ExpSnapshot.mk 0 1000, ExpSnapshot.mk 60 1500]⟩
          60 600 = some (last.exp - b.exp) ∧
      ((60 - 600 ≤ b.timestamp ∧
          ∀ s ∈ [ExpSnapshot.mk 0 1000, ExpSnapshot.mk 60 1500],
            60 - 600 ≤ s.timestamp → b.timestamp ≤ s.timestamp) ∨
        ((∀ s ∈ [ExpSnapshot.mk 0 1000, ExpSnapshot.mk 60 1500],
            s.timestamp < 60 - 600) ∧ b.timestamp ≤ 60 - 600 ∧
          ∀ s ∈ [ExpSnapshot.mk 0 1000, ExpSnapshot.mk 60 1500],
            s.timestamp ≤ b.timestamp)) :=
  ⟨⟨by norm_num [TsSorted, List.pairwise_cons], by simp⟩,
    exp_tracker_window_delta.2.2.2 (some 1000)
      [ExpSnapshot.mk 0 1000, ExpSnapshot.mk 60 1500] 60 600
      (by norm_num [TsSorted, List.pairwise_cons]) (by simp)⟩

theorem dropWhile_append_singleton_bound (c : ℚ) (x : ExpSnapshot)
    (hx : c ≤ x.timestamp) :
    ∀ (l : List ExpSnapshot), TsSorted l →
      ∀ s ∈ (l ++ [x]).dropWhile (fun s => decide (s.timestamp < c)),
        c ≤ s.timestamp := by
  intro l
  induction l with
  | nil =>
      intro _ s hsm
      simp only [List.nil_append, List.dropWhile_cons] at hsm
      rw [if_neg (by simpa using hx)] at hsm
      simp only [List.mem_singleton] at hsm
      subst hsm
      exact hx
  | cons a t ih =>
      intro hs s hsm
      rw [TsSorted, List.pairwise_cons] at hs
      rw [List.cons_append, List.dropWhile_cons] at hsm
      by_cases ha : a.timestamp < c
      · rw [if_pos (by simp only [decide_eq_true_eq]; exact ha)] at hsm
        exact ih hs.2 s hsm
      · rw [if_neg (by simp only [decide_eq_true_eq]; exact ha)] at hsm
        rcases List.mem_cons.mp hsm with rfl | hsm
        · exact le_of_not_lt ha
        · rcases List.mem_append.mp hsm with hsm | hsm
          · exact le_trans (le_of_not_lt ha) (hs.1 s hsm)
          · simp only [List.mem_singleton] at hsm
            subst hsm
            exact hx

theorem update_some_history (t : ExpTracker) (e : ℤ) (now : ℚ) :
    ((t.update (some e) now).1).history =
      ((match t.baseline with
        | none => [ExpSnapshot.mk now e]
        | some _ => t.history ++ [ExpSnapshot.mk now e]) :
          List ExpSnapshot).dropWhile
        (fun s => decide (s.timestamp < now - MAX_WINDOW_SEC)) := by
  cases hb : t.baseline <;>
    simp [ExpTracker.update, ExpTracker.reset, ExpTracker.prune, hb]

/-- Claim C5: after every update call carrying a value at time now,
every snapshot remaining in the history has timestamp at least
now - 3600; the pre-call history is assumed chronological (wall-clock
times are monotone across calls). -/
theorem exp_tracker_prune_invariant (t : ExpTracker) (e : ℤ) (now : ℚ)
    (hs : TsSorted t.history) :
    ∀ s ∈ ((t.update (some e) now).1).history,
      now - 3600 ≤ s.timestamp := by
  have h36 : MAX_WINDOW_SEC = 3600 := by norm_num [MAX_WINDOW_SEC]
  intro s hsm
  rw [update_some_history, h36] at hsm
  have hx : now - 3600 ≤ now := by linarith
  cases hb : t.baseline with
  | none =>
      simp only [hb] at hsm
      exact dropWhile_append_singleton_bound (now - 3600) ⟨now, e⟩ hx []
        List.Pairwise.nil s (by simpa using hsm)
  | some b0 =>
      simp only [hb] at hsm
      exact dropWhile_append_singleton_bound (now - 3600) ⟨now, e⟩ hx
        t.history hs s hsm

theorem exp_tracker_prune_invariant_witness :
    TsSorted [ExpSnapshot.mk 0 5] ∧
      ∀ s ∈ ((ExpTracker.mk (some 5) [ExpSnapshot.mk 0 5]).update
          (some 9) 4000).1.history,
        4000 - 3600 ≤ s.timestamp :=
  ⟨by simp [TsSorted],
    exp_tracker_prune_invariant ⟨some 5, [ExpSnapshot.mk 0 5]⟩ 9 4000
      (by simp [TsSorted])⟩

/-- The per-pass extraction result consumed by the watcher
(skills.SkillsInfo; the region field is not involved here): experience
and level strings and the skill key to value mapping. -/
structure SkillsInfo where
  experience : Option (List Char)
  level : Option (List Char)
  skills : List (String × List Char)
deriving DecidableEq, Repr

/-- The watcher fields written by one analysis pass
(skills.SkillsWatcher.last_experience, last_level, last_skills). -/
structure WatcherState where
  last_experience : Option (List Char)
  last_level : Option (List Char)
  last_skills : List (String × List Char)
deriving DecidableEq, Repr

/-- One analysis pass of SkillsWatcher._run (skills.py lines 780 to
791): keep the previous experience and level unless the fresh reading
passes its validity check, and assign the fresh skills mapping
(info.skills or the empty mapping) over the stored one. -/
def processPass (st : WatcherState) (info : SkillsInfo) : WatcherState :=
  { last_experience :=
      if is_valid_experience info.experience then info.experience
      else st.last_experience
    last_level :=
      if is_valid_level info.level then info.level else st.last_level
    last_skills := info.skills }

/-- Claim C2 as stated is false: a per-skill value that is not
recognized in a pass is not retained; the watcher replaces the whole
skills mapping, so the previously accepted sword value is dropped when
the fresh pass recognizes no sword value. -/
theorem stale_retention_counterexample :
    (WatcherState.mk (some (("100").toList)) (some (("9").toList))
        [("sword", ("39").toList)]).last_skills.lookup "sword" =
      some (("39").toList) ∧
    (processPass
        (WatcherState.mk (some (("100").toList)) (some (("9").toList))
          [("sword", ("39").toList)])
        (SkillsInfo.mk (some (("100").toList)) (some (("9").toList))
          [])).last_skills.lookup "sword" = none :=
  ⟨rfl, rfl⟩

/-- Claim C2 amended: stale retention holds per field for experience
and level (a reading failing its validity check leaves the stored value
of that field unchanged, independently of the other field), but the
per-skill mapping is replaced wholesale on every pass, so skill values
absent from the fresh mapping are dropped rather than retained. -/
theorem stale_retention_amended (st : WatcherState) (info : SkillsInfo) :
    (is_valid_experience info.experience = false →
      (processPass st info).last_experience = st.last_experience) ∧
    (is_valid_level info.level = false →
      (processPass st info).last_level = st.last_level) ∧
    (processPass st info).last_skills = info.skills := by
  unfold processPass
  refine ⟨fun hexp => ?_, fun hlvl => ?_, rfl⟩
  · simp [hexp]
  · simp [hlvl]

theorem stale_retention_amended_witness :
    (is_valid_experience (some (("x1").toList)) = false ∧
      is_valid_level (some (("12 (5%)").toList)) = true ∧
      is_valid_experience (some (("123").toList)) = true ∧
      is_valid_level (some (("y2").toList)) = false) ∧
    (processPass
        (WatcherState.mk (some (("100").toList)) (some (("9").toList))
          [("sword", ("39").toList)])
        (SkillsInfo.mk (some (("x1").toList)) (some (("12 (5%)").toList))
          [("axe", ("10").toList)])).last_experience =
        some (("100").toList) ∧
    (processPass
        (WatcherState.mk (some (("100").toList)) (some (("9").toList))
          [("sword", ("39").toList)])
        (SkillsInfo.mk (some (("123").toList)) (some (("y2").toList))
          [("axe", ("10").toList)])).last_level = some (("9").toList) ∧
    (processPass
        (WatcherState.mk (some (("100").toList)) (some (("9").toList))
          [("sword", ("39").toList)])
        (SkillsInfo.mk (some (("x1").toList)) (some (("12 (5%)").toList))
          [("axe", ("10").toList)])).last_skills =
        [("axe", ("10").toList)] :=
  ⟨⟨by decide, by decide, by decide, by decide⟩,
    (stale_retention_amended
      (WatcherState.mk (some (("100").toList)) (some (("9").toList))
        [("sword", ("39").toList)])
      (SkillsInfo.mk (some (("x1").toList)) (some (("12 (5%)").toList))
        [("axe", ("10").toList)])).1 (by decide),
    (stale_retention_amended
      (WatcherState.mk (some (("100").toList)) (some (("9").toList))
        [("sword", ("39").toList)])
      (SkillsInfo.mk (some (("123").toList)) (some (("y2").toList))
        [("axe", ("10").toList)])).2.1 (by decide),
    (stale_retention_amended
      (WatcherState.mk (some (("100").toList)) (some (("9").toList))
        [("sword", ("39").toList)])
      (SkillsInfo.mk (some (("x1").toList)) (some (("12 (5%)").toList))
        [("axe", ("10").toList)])).2.2⟩

/-- ocr_utils.find_number_box (the guard portion; the identical guard
opens hp_reader._find_number_box).  The digit templates are the loaded
char-to-template mapping; the chained per-digit template-matching core
operates on the input image and is opaque image processing, abstracted
as the body parameter, reached only after every guard passes. -/
def find_number_box {α β : Type} (body : α → Option β)
    (digits : List (Char × α)) (expected : List Char) : Option β :=
  if expected.isEmpty || !(expected.all (fun c => isDigitCh c)) ||
      digits.isEmpty then none
  else
    match expected with
    | [] => none
    | c :: _ =>
        match digits.lookup c with
        | none => none
        | some t => body t

/-- Claim C10: find_number_box returns None whenever the expected
string is empty, contains a non-digit character, the loaded digit
template set is empty, or no template exists for the first expected
digit; this holds for every matching core, hence for every image. -/
theorem find_number_box_guard {α β : Type} (body : α → Option β)
    (digits : List (Char × α)) (expected : List Char)
    (h : expected = [] ∨ (∃ c ∈ expected, isDigitCh c = false) ∨
      digits = [] ∨
      expected.head?.bind (fun c => digits.lookup c) = none) :
    find_number_box body digits expected = none := by
  unfold find_number_box
  rcases h with rfl | ⟨c, hc, hcd⟩ | rfl | hl
  · simp
  · have hall : expected.all (fun c => isDigitCh c) = false := by
      rw [Bool.eq_false_iff]
      intro hall
      have := List.all_eq_true.mp hall c hc
      rw [hcd] at this
      exact Bool.false_ne_true this
    rw [if_pos (by simp [hall])]
  · rw [if_pos (by simp)]
  · by_cases hguard : (expected.isEmpty ||
        !(expected.all (fun c => isDigitCh c)) || digits.isEmpty) = true
    · rw [if_pos hguard]
    · rw [if_neg hguard]
      cases expected with
      | nil => rfl
      | cons c t =>
          simp only [List.head?_cons, Option.some_bind] at hl
          simp only [hl]

theorem find_number_box_guard_witness :
    ((("a").toList = ([] : List Char)) ∨
      (∃ c ∈ ("a").toList, isDigitCh c = false) ∨
      ([(('4' : Char), (0 : Nat))] = ([] : List (Char × Nat))) ∨
      (("a").toList).head?.bind
        (fun c => ([(('4' : Char), (0 : Nat))]).lookup c) = none) ∧
    find_number_box (fun _ : Nat => some (0 : Nat))
      [(('4' : Char), (0 : Nat))] (("a").toList) = none :=
  ⟨Or.inr (Or.inl ⟨'a', by decide, by decide⟩),
    find_number_box_guard (fun _ : Nat => some (0 : Nat))
      [(('4' : Char), (0 : Nat))] (("a").toList)
      (Or.inr (Or.inl ⟨'a', by decide, by decide⟩))⟩

/-- The melee ETA fields of skills.SkillsWatcher: _eta_seconds,
_eta_snapshot ((selected key, level, percent)), _eta_last_ts. -/
structure MeleeEta where
  seconds : Option ℚ
  snapshot : Option (String × Option ℤ × Option ℤ)
  lastTs : ℚ
deriving DecidableEq, Repr

/-- One melee ETA baseline-or-decay step of
SkillsWatcher._update_status (skills.py lines 633 to 659) for a
selected melee skill with parsed (lvl, pct).  secondsToNext is the
get_seconds_to_next table value: the skill_tables module is not among
the analyzed sources, so the looked-up value is an input here, None
when lvl is None as in the source.  A None or zero value skips the
step (Python truthiness). -/
def meleeEtaStep (st : MeleeEta) (selKey : String) (lvl pct : Option ℤ)
    (secondsToNext : Option ℤ) (now : ℚ) : MeleeEta :=
  match (if lvl.isSome then secondsToNext else none) with
  | none => st
  | some sec =>
      if sec = 0 then st
      else
        match (if st.snapshot ≠ some (selKey, lvl, pct) then none
            else st.seconds) with
        | none =>
            let remaining : ℚ :=
              match pct with
              | some p => max 0 ((sec : ℚ) * ((max 0 (100 - p) : ℤ) : ℚ)
                  / 100)
              | none => (sec : ℚ)
            ⟨some remaining, some (selKey, lvl, pct), now⟩
        | some r =>
            ⟨some (max 0 (r - max 0 (now - st.lastTs))),
              some (selKey, lvl, pct), now⟩

theorem meleeEtaStep_decay (st : MeleeEta) (selKey : String) (lvl : ℤ)
    (pct : Option ℤ) (sec : ℤ) (now : ℚ) (r : ℚ)
    (hr : st.seconds = some r)
    (hsnap : st.snapshot = some (selKey, some lvl, pct))
    (hsec : sec ≠ 0) :
    meleeEtaStep st selKey (some lvl) pct (some sec) now =
      ⟨some (max 0 (r - max 0 (now - st.lastTs))),
        some (selKey, some lvl, pct), now⟩ := by
  unfold meleeEtaStep
  simp [hsnap, hr, hsec]

/-- Claim C3: for an unchanged (skill, level, percent) measurement
tuple, an ETA baselined at remaining 100 seconds at monotonic time T
reports remaining 60 seconds at time T+40, and a second status update
at the same time T+40 reports 60 again: elapsed time is consumed
exactly once. -/
theorem melee_eta_decay (T : ℚ) (st : MeleeEta) (selKey : String)
    (lvl : ℤ) (pct : Option ℤ) (sec : ℤ)
    (h100 : st.seconds = some 100)
    (hsnap : st.snapshot = some (selKey, some lvl, pct))
    (hts : st.lastTs = T) (hsec : sec ≠ 0) :
    (meleeEtaStep st selKey (some lvl) pct (some sec) (T + 40)).seconds =
        some 60 ∧
    (meleeEtaStep (meleeEtaStep st selKey (some lvl) pct (some sec)
        (T + 40)) selKey (some lvl) pct (some sec) (T + 40)).seconds =
      some 60 := by
  have hstep1 := meleeEtaStep_decay st selKey lvl pct sec (T + 40) 100
    h100 hsnap hsec
  rw [hts] at hstep1
  have e1 : T + 40 - T = (40 : ℚ) := by ring
  have harith : max (0 : ℚ) (100 - max 0 (T + 40 - T)) = 60 := by
    rw [e1, show max (0 : ℚ) 40 = 40 from max_eq_right (by norm_num),
      show (100 : ℚ) - 40 = 60 by norm_num]
    exact max_eq_right (by norm_num)
  have hstep2 := meleeEtaStep_decay
    ⟨some (max 0 (100 - max 0 (T + 40 - T))),
      some (selKey, some lvl, pct), T + 40⟩
    selKey lvl pct sec (T + 40) (max 0 (100 - max 0 (T + 40 - T)))
    rfl rfl hsec
  constructor
  · rw [hstep1, harith]
  · rw [hstep1, hstep2]
    simp only [harith, sub_self]
    rw [show max (0 : ℚ) 0 = 0 from max_self 0, sub_zero]
    exact congrArg some (max_eq_right (by norm_num))

theorem melee_eta_decay_witness :
    ((MeleeEta.mk (some 100) (some ("sword", some 39, some 67))
        5).seconds = some 100 ∧
      (MeleeEta.mk (some 100) (some ("sword", some 39, some 67))
        5).snapshot = some ("sword", some 39, some 67) ∧
      (MeleeEta.mk (some 100) (some ("sword", some 39, some 67))
        5).lastTs = 5 ∧ (7200 : ℤ) ≠ 0) ∧
    (meleeEtaStep
        (MeleeEta.mk (some 100) (some ("sword", some 39, some 67)) 5)
        "sword" (some 39) (some 67) (some 7200) (5 + 40)).seconds =
      some 60 ∧
    (meleeEtaStep
        (meleeEtaStep
          (MeleeEta.mk (some 100) (some ("sword", some 39, some 67)) 5)
          "sword" (some 39) (some 67) (some 7200) (5 + 40))
        "sword" (some 39) (some 67) (some 7200) (5 + 40)).seconds =
      some 60 :=
  ⟨⟨rfl, rfl, rfl, by decide⟩,
    melee_eta_decay 5
      (MeleeEta.mk (some 100) (some ("sword", some 39, some 67)) 5)
      "sword" 39 (some 67) 7200 rfl rfl rfl (by decide)⟩

/-- The per-bound distance ETA dictionary of
SkillsWatcher._distance_state. -/
structure DistState where
  sec_min : ℚ
  sec_max : ℚ
  base_sec_min : ℚ
  base_sec_max : ℚ
  stones_min : ℤ
  stones_max : ℤ
  base_stones_min : ℤ
  base_stones_max : ℤ
deriving DecidableEq, Repr

/-- Distance ETA fields of the watcher: _distance_state plus the
shared _eta_snapshot and _eta_last_ts. -/
structure DistEta where
  dstate : Option DistState
  snapshot : Option (String × Option ℤ × Option ℤ)
  lastTs : ℚ
deriving DecidableEq, Repr

/-- One distance ETA step of SkillsWatcher._update_status (skills.py
lines 662 to 719): with both bracket seconds present, on tuple change
or missing state build the percent-scaled baselines, else decay
sec_min and sec_max by the clamped elapsed time; in both cases
recompute the remaining stone counts proportionally to the remaining
over base seconds ratio.  The get_distance_brackets values are inputs
(the skill_tables module is not among the analyzed sources). -/
def distUpd (st : DistEta) (selKey : String) (lvl pct : Option ℤ)
    (fresh : DistState) (now : ℚ) :
    DistState × Option (String × Option ℤ × Option ℤ) × ℚ :=
  match st.dstate with
  | none => (fresh, some (selKey, lvl, pct), now)
  | some ds =>
      if st.snapshot ≠ some (selKey, lvl, pct) then
        (fresh, some (selKey, lvl, pct), now)
      else
        ({ ds with
            sec_min := max 0 (ds.sec_min - max 0 (now - st.lastTs))
            sec_max := max 0 (ds.sec_max - max 0 (now - st.lastTs)) },
          st.snapshot, now)

/-- One distance ETA step of SkillsWatcher._update_status (skills.py
lines 662 to 719): with both bracket seconds present, on tuple change
or missing state build the percent-scaled baselines (distUpd above),
else decay sec_min and sec_max by the clamped elapsed time; in both
cases recompute the remaining stone counts proportionally to the
remaining over base seconds ratio.  The get_distance_brackets values
are inputs (the skill_tables module is not among the analyzed
sources). -/
def distanceEtaStep (st : DistEta) (selKey : String)
    (lvl pct : Option ℤ) (secMin secMax : Option ℚ)
    (stonesMin stonesMax : Option ℤ) (now : ℚ) : DistEta :=
  match secMin, secMax with
  | some smin, some smax =>
      let pctLeft : ℤ := max 0 (100 - pct.getD 0)
      let baseMin : ℚ := max 0 (smin * (pctLeft : ℚ) / 100)
      let baseMax : ℚ := max 0 (smax * (pctLeft : ℚ) / 100)
      let baseStonesMin : ℤ :=
        max 0 ⌈((stonesMin.getD 0 : ℚ) * (pctLeft : ℚ) / 100)⌉
      let baseStonesMax : ℤ :=
        max 0 ⌈((stonesMax.getD 0 : ℚ) * (pctLeft : ℚ) / 100)⌉
      let fresh : DistState :=
        ⟨baseMin, baseMax, baseMin, baseMax, baseStonesMin,
          baseStonesMax, baseStonesMin, baseStonesMax⟩
      let upd := distUpd st selKey lvl pct fresh now
      let ds1 := upd.1
      let stonesMinLeft : ℤ :=
        max 0 ⌈(ds1.base_stones_min : ℚ) *
          (ds1.sec_min / max (1 / 1000000) ds1.base_sec_min)⌉
      let stonesMaxLeft : ℤ :=
        max 0 ⌈(ds1.base_stones_max : ℚ) *
          (ds1.sec_max / max (1 / 1000000) ds1.base_sec_max)⌉
      ⟨some { ds1 with
          stones_min := stonesMinLeft, stones_max := stonesMaxLeft },
        upd.2.1, upd.2.2⟩
  | _, _ => st

theorem distUpd_sec_nonneg (st : DistEta) (selKey : String)
    (lvl pct : Option ℤ) (fresh : DistState) (now : ℚ)
    (h1 : 0 ≤ fresh.sec_min) (h2 : 0 ≤ fresh.sec_max) :
    0 ≤ (distUpd st selKey lvl pct fresh now).1.sec_min ∧
      0 ≤ (distUpd st selKey lvl pct fresh now).1.sec_max := by
  unfold distUpd
  cases st.dstate with
  | none => exact ⟨h1, h2⟩
  | some ds =>
      by_cases hs : st.snapshot ≠ some (selKey, lvl, pct)
      · simp only [if_pos hs]
        exact ⟨h1, h2⟩
      · simp only [if_neg hs]
        exact ⟨le_max_left 0 _, le_max_left 0 _⟩

/-- Shield ETA fields of the watcher: _shield_eta_seconds,
_shield_snapshot ((level, percent, mode)), _shield_last_ts. -/
structure ShieldEta where
  seconds : Option ℚ
  snapshot : Option (Option ℤ × Option ℤ × ℤ)
  lastTs : ℚ
deriving DecidableEq, Repr

/-- One shielding ETA step of SkillsWatcher._update_status (skills.py
lines 724 to 743): the melee seconds table value (an input; the
skill_tables module is not among the analyzed sources, None when lvl
is None as in the source) is halved in mode 2; the ETA re-baselines
when (level, percent, mode) changed or no ETA is stored, else decays
by the clamped elapsed time. -/
def shieldEtaStep (st : ShieldEta) (lvl pct : Option ℤ)
    (secOpt : Option ℤ) (mode : ℤ) (now : ℚ) : ShieldEta :=
  match (if lvl.isSome then secOpt else none) with
  | none => st
  | some s0 =>
      if s0 = 0 then st
      else
        let sec : ℚ := if mode = 2 then (s0 : ℚ) / 2 else (s0 : ℚ)
        if st.snapshot ≠ some (lvl, pct, mode) ∨ st.seconds = none then
          let remaining : ℚ :=
            match pct with
            | some p => sec * ((max 0 (100 - p) : ℤ) : ℚ) / 100
            | none => sec
          ⟨some (max 0 remaining), some (lvl, pct, mode), now⟩
        else
          ⟨some (max 0 (st.seconds.getD 0 - max 0 (now - st.lastTs))),
            st.snapshot, now⟩

/-- Claim C4: for every measurement tuple, state and clamped elapsed
time, after a melee baseline-or-decay step (table seconds positive: a
nonzero value enters the branch and table values are durations), a
distance step (both bracket seconds present), and a shielding step
(nonzero table value), the stored melee ETA seconds, the distance
sec_min and sec_max, and the shielding ETA seconds are all
nonnegative. -/
theorem eta_seconds_nonneg (stM : MeleeEta) (stD : DistEta)
    (stS : ShieldEta) (key : String) (lvlM lvlS : ℤ)
    (pctM pctD pctS lvlD : Option ℤ) (secM secS : ℤ) (smin smax : ℚ)
    (stmin stmax : Option ℤ) (mode : ℤ) (nowM nowD nowS : ℚ)
    (hM0 : secM ≠ 0) (hMnn : 0 ≤ secM) (hS0 : secS ≠ 0) :
    (∃ r, (meleeEtaStep stM key (some lvlM) pctM (some secM)
        nowM).seconds = some r ∧ 0 ≤ r) ∧
    (∃ ds, (distanceEtaStep stD key lvlD pctD (some smin) (some smax)
        stmin stmax nowD).dstate = some ds ∧
      0 ≤ ds.sec_min ∧ 0 ≤ ds.sec_max) ∧
    (∃ r, (shieldEtaStep stS (some lvlS) pctS (some secS) mode
        nowS).seconds = some r ∧ 0 ≤ r) := by
  refine ⟨?_, ?_, ?_⟩
  · unfold meleeEtaStep
    simp only [Option.isSome_some, if_true]
    rw [if_neg hM0]
    by_cases hsnap : stM.snapshot ≠ some (key, some lvlM, pctM)
    · rw [if_pos hsnap]
      cases pctM with
      | none =>
          refine ⟨_, rfl, ?_⟩
          show (0 : ℚ) ≤ ((secM : ℤ) : ℚ)
          exact_mod_cast hMnn
      | some p => exact ⟨_, rfl, le_max_left 0 _⟩
    · rw [if_neg hsnap]
      cases hsec : stM.seconds with
      | none =>
          cases pctM with
          | none =>
              refine ⟨_, rfl, ?_⟩
              show (0 : ℚ) ≤ ((secM : ℤ) : ℚ)
              exact_mod_cast hMnn
          | some p => exact ⟨_, rfl, le_max_left 0 _⟩
      | some r => exact ⟨_, rfl, le_max_left 0 _⟩
  · refine ⟨_, rfl, ?_, ?_⟩
    · exact (distUpd_sec_nonneg stD key lvlD pctD _ nowD
        (le_max_left 0 _) (le_max_left 0 _)).1
    · exact (distUpd_sec_nonneg stD key lvlD pctD _ nowD
        (le_max_left 0 _) (le_max_left 0 _)).2
  · unfold shieldEtaStep
    simp only [Option.isSome_some, if_true]
    rw [if_neg hS0]
    by_cases hc : stS.snapshot ≠ some (some lvlS, pctS, mode) ∨
        stS.seconds = none
    · rw [if_pos hc]
      exact ⟨_, rfl, le_max_left 0 _⟩
    · rw [if_neg hc]
      exact ⟨_, rfl, le_max_left 0 _⟩

theorem eta_seconds_nonneg_witness :
    ((7200 : ℤ) ≠ 0 ∧ (0 : ℤ) ≤ 7200 ∧ (600 : ℤ) ≠ 0) ∧
    (∃ r, (meleeEtaStep (MeleeEta.mk none none 0) "axe" (some 20)
        (some 30) (some 7200) 11).seconds = some r ∧ 0 ≤ r) ∧
    (∃ ds, (distanceEtaStep (DistEta.mk none none 0) "distance"
        (some 25) (some 40) (some 3600) (some 7200) (some 100)
        (some 200) 11).dstate = some ds ∧
      0 ≤ ds.sec_min ∧ 0 ≤ ds.sec_max) ∧
    (∃ r, (shieldEtaStep (ShieldEta.mk none none 0) (some 15) (some 50)
        (some 600) 2 11).seconds = some r ∧ 0 ≤ r) :=
  ⟨⟨by decide, by decide, by decide⟩,
    (eta_seconds_nonneg (MeleeEta.mk none none 0) (DistEta.mk none none 0)
      (ShieldEta.mk none none 0) "axe" 20 15 (some 30) (some 40)
      (some 50) (some 25) 7200 600 3600 7200 (some 100) (some 200) 2
      11 11 11 (by decide) (by decide) (by decide)).1,
    (eta_seconds_nonneg (MeleeEta.mk none none 0) (DistEta.mk none none 0)
      (ShieldEta.mk none none 0) "distance" 20 15 (some 30) (some 40)
      (some 50) (some 25) 7200 600 3600 7200 (some 100) (some 200) 2
      11 11 11 (by decide) (by decide) (by decide)).2⟩
